import Mathlib

/-!
Verification development for the ts-mcp-sse-proxy repository: a shallow
embedding of the session lifecycle manager, the bidirectional relay engine,
the admission-control helpers and the rate-limiting middleware, together
with theorems settling the specification claims.
-/

namespace TsMcpSseProxy

/-! ## Outbound relay: worker stdout reassembly

Embeds the `childProcess.stdout.on("data", ...)` handler of
`src/index.ts` (lines 305-328):

    buffer += chunk.toString("utf8");
    const lines = buffer.split(/\r?\n/);
    buffer = lines.pop() ?? "";
    lines.forEach((line) => {
        if (!line.trim()) return;
        try { const jsonMsg = JSON.parse(line); session.transport.send(jsonMsg); ... }
        catch { this.logger.debug(...); }
    });

`String.prototype.split` with the separator pattern `\r?\n` cuts the buffer
at every newline; a carriage return immediately preceding a consumed newline
is consumed with it, while a trailing carriage return of the final fragment
(the value put back into `buffer` by `lines.pop()`) is kept.  Strings are
modelled as `List Char`.

The handler receives each chunk as a raw byte `Buffer` and decodes it
*standalone* with `chunk.toString("utf8")` — there is no `setEncoding` or
`StringDecoder` anywhere in the source — so a chunk boundary falling inside
a multi-byte UTF-8 character yields replacement characters.  The text-level
machinery below (`splitNL`, `processChunk`, `feed`) operates on the decoded
characters; the per-chunk byte decoding itself is embedded further down as
`utf8Decode`, and the byte-level pipeline as `runByteChunks`. -/

/-- Cut a character stream at every newline character: returns the list of
complete lines (each still carrying a possible trailing carriage return)
and the trailing fragment after the last newline. -/
def splitNL : List Char → List (List Char) × List Char
  | [] => ([], [])
  | c :: rest =>
    if c = '\n' then ([] :: (splitNL rest).1, (splitNL rest).2)
    else
      match splitNL rest with
      | ([], r) => ([], c :: r)
      | (l :: ls, r) => ((c :: l) :: ls, r)

/-- Drop a single trailing carriage return, as the optional leading
carriage return of the split separator does for every complete line. -/
def dropTrailingCR (l : List Char) : List Char :=
  if l.getLast? = some '\r' then l.dropLast else l

/-- One invocation of the stdout data handler, as applied to the *decoded
text* of one chunk: append it to the buffered remainder, extract the
complete lines, keep the incomplete remainder buffered. -/
def processChunk (buf chunk : List Char) : List (List Char) × List Char :=
  let p := splitNL (buf ++ chunk)
  (p.1.map dropTrailingCR, p.2)

/-- Folding step over successive chunks: accumulated complete lines plus
the current buffer. -/
def feed (st : List (List Char) × List Char) (chunk : List Char) :
    List (List Char) × List Char :=
  let p := processChunk st.2 chunk
  (st.1 ++ p.1, p.2)

/-- Run the stdout data handler over a whole sequence of delivered chunks,
starting from the empty buffer. -/
def runChunks (chunks : List (List Char)) : List (List Char) × List Char :=
  chunks.foldl feed ([], [])

/-- Whitespace as `String.prototype.trim` sees it (the characters relevant
to worker output: space, tab, newline, carriage return, vertical tab,
form feed). -/
def jsWhitespace (c : Char) : Bool :=
  c == ' ' || c == '\t' || c == '\n' || c == '\r' ||
    c == Char.ofNat 11 || c == Char.ofNat 12

/-- `!line.trim()`: the line is blank after trimming. -/
def trimEmpty (l : List Char) : Bool := l.all jsWhitespace

/-- The per-line forwarding decision of the handler body: blank lines are
skipped, parsable lines are forwarded, unparsable lines are dropped.
`parse` abstracts `JSON.parse` (returning `none` on a parse failure). -/
def forwardLine {J : Type} (parse : List Char → Option J) (line : List Char) :
    Option J :=
  if trimEmpty line then none else parse line

/-- The full sequence of messages forwarded to the caller stream for a
given sequence of delivered stdout chunks. -/
def forwardedMessages {J : Type} (parse : List Char → Option J)
    (chunks : List (List Char)) : List J :=
  (runChunks chunks).1.filterMap (forwardLine parse)

theorem splitNL_cons_nl (rest : List Char) :
    splitNL ('\n' :: rest) = ([] :: (splitNL rest).1, (splitNL rest).2) := by
  simp [splitNL]

theorem splitNL_cons_no_nil {c : Char} {rest : List Char} (hc : c ≠ '\n')
    (h : (splitNL rest).1 = []) :
    splitNL (c :: rest) = ([], c :: (splitNL rest).2) := by
  rcases hp : splitNL rest with ⟨f, r⟩
  rw [hp] at h
  subst h
  simp [splitNL, hc, hp]

theorem splitNL_cons_no_cons {c : Char} {rest l0 : List Char}
    {ls : List (List Char)} (hc : c ≠ '\n') (h : (splitNL rest).1 = l0 :: ls) :
    splitNL (c :: rest) = ((c :: l0) :: ls, (splitNL rest).2) := by
  rcases hp : splitNL rest with ⟨f, r⟩
  rw [hp] at h
  subst h
  simp [splitNL, hc, hp]

theorem splitNL_fst_nil {l : List Char} (h : (splitNL l).1 = []) :
    (splitNL l).2 = l := by
  induction l with
  | nil => rfl
  | cons c rest ih =>
    by_cases hc : c = '\n'
    · subst hc; rw [splitNL_cons_nl] at h; simp at h
    · rcases h1 : (splitNL rest).1 with _ | ⟨l0, ls⟩
      · rw [splitNL_cons_no_nil hc h1]
        simpa using ih h1
      · rw [splitNL_cons_no_cons hc h1] at h
        simp at h

theorem splitNL_snd_no_nl (l : List Char) : '\n' ∉ (splitNL l).2 := by
  induction l with
  | nil => simp [splitNL]
  | cons c rest ih =>
    by_cases hc : c = '\n'
    · subst hc; rw [splitNL_cons_nl]; simpa using ih
    · rcases h1 : (splitNL rest).1 with _ | ⟨l0, ls⟩
      · rw [splitNL_cons_no_nil hc h1]
        simp only [List.mem_cons, not_or]
        exact ⟨fun hce => hc hce.symm, by simpa using ih⟩
      · rw [splitNL_cons_no_cons hc h1]
        simpa using ih

theorem splitNL_append (a b : List Char) :
    splitNL (a ++ b) =
      ((splitNL a).1 ++ (splitNL ((splitNL a).2 ++ b)).1,
        (splitNL ((splitNL a).2 ++ b)).2) := by
  induction a with
  | nil => simp [splitNL]
  | cons c a2 ih =>
    by_cases hc : c = '\n'
    · subst hc
      rw [List.cons_append, splitNL_cons_nl, splitNL_cons_nl, ih]
      simp
    · rcases h1 : (splitNL a2).1 with _ | ⟨l0, ls⟩
      · -- no complete line inside a2: the whole of c :: a2 stays unbroken
        have hr : (splitNL a2).2 = a2 := splitNL_fst_nil h1
        have hca2 : splitNL (c :: a2) = ([], c :: a2) := by
          rw [splitNL_cons_no_nil hc h1, hr]
        rw [List.cons_append, hca2]
        simp
      · -- a2 already contains a complete line: c joins its first line
        have hca2 : splitNL (c :: a2) =
            ((c :: l0) :: ls, (splitNL a2).2) :=
          splitNL_cons_no_cons hc h1
        have hab1 : (splitNL (a2 ++ b)).1 =
            l0 :: (ls ++ (splitNL ((splitNL a2).2 ++ b)).1) := by
          rw [ih, h1]; simp
        have hcab : splitNL (c :: (a2 ++ b)) =
            ((c :: l0) :: (ls ++ (splitNL ((splitNL a2).2 ++ b)).1),
              (splitNL (a2 ++ b)).2) :=
          splitNL_cons_no_cons hc hab1
        rw [List.cons_append, hcab, hca2, ih]
        simp

theorem splitNL_of_no_nl {l : List Char} (h : '\n' ∉ l) :
    splitNL l = ([], l) := by
  induction l with
  | nil => rfl
  | cons c rest ih =>
    have hc : c ≠ '\n' := fun hcontra => h (hcontra ▸ List.mem_cons_self c rest)
    have hrest : '\n' ∉ rest := fun hm => h (List.mem_cons_of_mem c hm)
    have hr := ih hrest
    rw [splitNL_cons_no_nil hc (by rw [hr]), hr]

theorem foldl_feed (chunks : List (List Char)) :
    ∀ acc buf, (splitNL buf).1 = [] →
      chunks.foldl feed (acc, buf) =
        (acc ++ (splitNL (buf ++ chunks.flatten)).1.map dropTrailingCR,
          (splitNL (buf ++ chunks.flatten)).2) := by
  induction chunks with
  | nil =>
    intro acc buf hbuf
    have hb2 : (splitNL buf).2 = buf := splitNL_fst_nil hbuf
    simp [hbuf, hb2]
  | cons c cs ih =>
    intro acc buf hbuf
    have hstep : feed (acc, buf) c =
        (acc ++ (splitNL (buf ++ c)).1.map dropTrailingCR,
          (splitNL (buf ++ c)).2) := rfl
    have hrem : (splitNL ((splitNL (buf ++ c)).2)).1 = [] := by
      rw [splitNL_of_no_nl (splitNL_snd_no_nl (buf ++ c))]
    rw [List.foldl_cons, hstep, ih _ _ hrem]
    rw [List.flatten_cons,
      show buf ++ (c ++ cs.flatten) = (buf ++ c) ++ cs.flatten from
        (List.append_assoc buf c cs.flatten).symm,
      splitNL_append (buf ++ c) cs.flatten]
    simp [List.append_assoc]

/-- Character-level invariance lemma: once each chunk has been decoded to
text, the sequence of messages forwarded is independent of how the decoded
text was cut into chunks — every complete line is extracted exactly once,
with a trailing carriage return tolerated and the incomplete remainder
kept buffered. -/
theorem chunking_preserves_forwarded_messages {J : Type}
    (parse : List Char → Option J) (chunks : List (List Char)) :
    forwardedMessages parse chunks = forwardedMessages parse [chunks.flatten] ∧
    (runChunks chunks).1 =
      (splitNL chunks.flatten).1.map dropTrailingCR ∧
    (runChunks chunks).2 = (splitNL chunks.flatten).2 := by
  have h1 := foldl_feed chunks [] [] rfl
  have h2 := foldl_feed [chunks.flatten] [] [] rfl
  simp only [runChunks, forwardedMessages]
  rw [h1, h2]
  simp

/-! ## Byte-level chunk decoding

`childProcess.stdout` delivers raw byte `Buffer`s, and the handler decodes
every chunk on its own with `chunk.toString("utf8")`.  Node's UTF-8
decoding follows the WHATWG replacement policy: an invalid byte, and a
sequence truncated at the end of the buffer, each decode to the U+FFFD
replacement character (one per maximal subpart).  Bytes are modelled as
`Nat` values below 256. -/

/-- The U+FFFD replacement character. -/
def replacementChar : Char := Char.ofNat 0xFFFD

/-- Decoder state: how many continuation bytes are still needed, the
partial code point, and the admissible range for the next continuation
byte (narrowed after an E0/ED/F0/F4 lead to exclude overlong encodings and
surrogates). -/
structure Utf8DecState where
  needed : Nat
  cp : Nat
  lower : Nat
  upper : Nat
deriving DecidableEq, Repr

/-- The decoder's ground state. -/
def utf8Ground : Utf8DecState := ⟨0, 0, 0x80, 0xBF⟩

/-- Handle one byte in the ground state: ASCII is emitted directly, a
valid lead byte opens a multi-byte sequence, anything else (a stray
continuation byte, C0/C1, F5-FF) emits a replacement character. -/
def utf8Lead (b : Nat) : List Char × Utf8DecState :=
  if b ≤ 0x7F then ([Char.ofNat b], utf8Ground)
  else if 0xC2 ≤ b ∧ b ≤ 0xDF then ([], ⟨1, b % 32, 0x80, 0xBF⟩)
  else if 0xE0 ≤ b ∧ b ≤ 0xEF then
    ([], ⟨2, b % 16, if b = 0xE0 then 0xA0 else 0x80,
      if b = 0xED then 0x9F else 0xBF⟩)
  else if 0xF0 ≤ b ∧ b ≤ 0xF4 then
    ([], ⟨3, b % 8, if b = 0xF0 then 0x90 else 0x80,
      if b = 0xF4 then 0x8F else 0xBF⟩)
  else ([replacementChar], utf8Ground)

/-- Handle one byte in an arbitrary decoder state: an expected
continuation byte in range extends the sequence (emitting the completed
code point when it was the last one); an out-of-range byte emits a
replacement character and is reprocessed as a fresh lead. -/
def utf8Step (st : Utf8DecState) (b : Nat) : List Char × Utf8DecState :=
  if st.needed = 0 then utf8Lead b
  else if st.lower ≤ b ∧ b ≤ st.upper then
    let cp2 := st.cp * 64 + b % 64
    if st.needed = 1 then ([Char.ofNat cp2], utf8Ground)
    else ([], ⟨st.needed - 1, cp2, 0x80, 0xBF⟩)
  else
    let p := utf8Lead b
    (replacementChar :: p.1, p.2)

/-- Run the decoder over a byte list; a sequence left incomplete at the
end of the buffer is flushed as one replacement character. -/
def utf8DecodeLoop : Utf8DecState → List Nat → List Char
  | st, [] => if st.needed = 0 then [] else [replacementChar]
  | st, b :: rest =>
    let p := utf8Step st b
    p.1 ++ utf8DecodeLoop p.2 rest

/-- `chunk.toString("utf8")`: standalone decoding of one buffer's bytes. -/
def utf8Decode (bytes : List Nat) : List Char :=
  utf8DecodeLoop utf8Ground bytes

/-- One invocation of the stdout data handler on a raw byte chunk: decode
this chunk's bytes standalone, then run the text-level step. -/
def byteFeed (st : List (List Char) × List Char) (chunk : List Nat) :
    List (List Char) × List Char :=
  feed st (utf8Decode chunk)

/-- The stdout data handler over a whole sequence of delivered byte
chunks, starting from the empty buffer. -/
def runByteChunks (chunks : List (List Nat)) :
    List (List Char) × List Char :=
  chunks.foldl byteFeed ([], [])

/-- The messages forwarded to the caller stream for a given sequence of
delivered stdout byte chunks. -/
def byteForwardedMessages {J : Type} (parse : List Char → Option J)
    (chunks : List (List Nat)) : List J :=
  (runByteChunks chunks).1.filterMap (forwardLine parse)

/-- The claim as frozen: for every worker output byte stream and every way
of splitting it into successive chunks, the forwarded message sequence is
the same as for the unsplit stream, whatever the parse function. -/
def byteChunkingInvariant : Prop :=
  ∀ (J : Type) (parse : List Char → Option J) (chunks : List (List Nat)),
    byteForwardedMessages parse chunks =
      byteForwardedMessages parse [chunks.flatten]

/-- C4 (counterexample): the byte stream of `{"k":"é"}` plus newline,
split between the two bytes 0xC3 0xA9 of the two-byte character `é`:
each half-chunk is decoded standalone, so each truncated half becomes a
U+FFFD replacement character and the stream forwards a corrupted message,
while the unsplit stream forwards the intact object — the forwarded
sequences differ, refuting the claim. -/
theorem byte_chunking_counterexample : ¬ byteChunkingInvariant := by
  intro h
  have hc := h (List Char) some
    [[123, 34, 107, 34, 58, 34, 195], [169, 34, 125, 10]]
  exact absurd hc (by decide)

/-- C4 (amended): for every worker output byte stream and every way of
splitting it into successive chunks *whose boundaries fall on UTF-8
character boundaries* (decoding the whole stream agrees with concatenating
the per-chunk decodings — the code decodes each chunk standalone, so a
boundary inside a multi-byte character corrupts the message with
replacement characters), the sequence of messages forwarded to the caller
is the same as for the unsplit stream: a chunk boundary falling inside a
JSON object's character sequence never causes a malformed message to be
forwarded, and the object is delivered whole exactly once once its
terminating newline arrives. -/
theorem byte_chunking_invariant_on_char_boundaries {J : Type}
    (parse : List Char → Option J) (chunks : List (List Nat))
    (hsafe : utf8Decode chunks.flatten = (chunks.map utf8Decode).flatten) :
    byteForwardedMessages parse chunks =
      byteForwardedMessages parse [chunks.flatten] ∧
    (runByteChunks chunks).1 =
      (splitNL (utf8Decode chunks.flatten)).1.map dropTrailingCR := by
  have hchar : runByteChunks chunks = runChunks (chunks.map utf8Decode) := by
    simp only [runByteChunks, runChunks]
    rw [List.foldl_map]
    rfl
  have hsingle : runByteChunks [chunks.flatten] =
      runChunks [utf8Decode chunks.flatten] := rfl
  have h1 := foldl_feed (chunks.map utf8Decode) [] [] rfl
  have h2 := foldl_feed [utf8Decode chunks.flatten] [] [] rfl
  simp only [List.nil_append, List.flatten_cons, List.flatten_nil,
    List.append_nil] at h1 h2
  constructor
  · simp only [byteForwardedMessages, hchar, hsingle, runChunks]
    rw [h1, h2, hsafe]
  · simp only [hchar, runChunks]
    rw [h1, hsafe]

theorem byte_chunking_invariant_on_char_boundaries_witness :
    byteForwardedMessages some
        [[123, 34, 107, 34], [58, 34, 195, 169, 34, 125, 10]] =
      byteForwardedMessages some
        [[[123, 34, 107, 34], [58, 34, 195, 169, 34, 125, 10]].flatten] ∧
    (runByteChunks
        [[123, 34, 107, 34], [58, 34, 195, 169, 34, 125, 10]]).1 =
      (splitNL (utf8Decode
        [[123, 34, 107, 34],
          [58, 34, 195, 169, 34, 125, 10]].flatten)).1.map dropTrailingCR :=
  byte_chunking_invariant_on_char_boundaries some
    [[123, 34, 107, 34], [58, 34, 195, 169, 34, 125, 10]] (by decide)

/-! ## Session registry and teardown

Embeds `MCPSSEProxy.cleanupSession` of `src/index.ts` (lines 381-405):

    private cleanupSession(sessionId: string): void {
        const session = this.sessions[sessionId];
        if (session) {
            try {
                if (!session.childProcess.killed) {
                    session.childProcess.kill("SIGTERM");
                    setTimeout(() => {
                        if (!session.childProcess.killed) {
                            session.childProcess.kill("SIGKILL");
                        }
                    }, this.config.process.gracefulTimeout);
                }
            } catch (error) { this.logger.error(...); }
            delete this.sessions[sessionId];
        }
    }

Node's `ChildProcess.killed` flag is set to `true` as soon as a `kill()`
call successfully *sends* a signal; it does not indicate that the process
has exited.  The worker model therefore carries both an `exited` flag (the
operating-system process is gone) and the `killedFlag` (a signal was
successfully sent), plus an `ignoresSigterm` flag describing how the
process reacts to a graceful-termination request. -/

/-- Signals sent to a worker process. -/
inductive Sig
  | term
  | kill
deriving DecidableEq, Repr

/-- Worker process handle as the proxy observes it. -/
structure Worker where
  exited : Bool
  killedFlag : Bool
  ignoresSigterm : Bool
deriving DecidableEq, Repr

/-- `ChildProcess.kill(sig)`: sending succeeds while the process still
exists, in which case the `killed` flag is set and the signal is delivered
(SIGTERM terminates the process only if it does not ignore it; SIGKILL
always terminates it).  Returns the updated handle and the signal actually
sent, if any. -/
def sendSignal (w : Worker) (s : Sig) : Worker × List Sig :=
  if w.exited then (w, [])
  else
    match s with
    | Sig.term =>
      ({ w with killedFlag := true, exited := !w.ignoresSigterm }, [Sig.term])
    | Sig.kill =>
      ({ w with killedFlag := true, exited := true }, [Sig.kill])

/-- The `setTimeout` callback scheduled by `cleanupSession`, evaluated once
the grace period has elapsed: force-kill only when the `killed` flag is
still unset. -/
def forceKillCallback (w : Worker) : Worker × List Sig :=
  if !w.killedFlag then sendSignal w Sig.kill else (w, [])

/-- The complete grace-then-force sequence that `cleanupSession` applies to
the worker of a live session: the guarded SIGTERM followed, after the
grace period, by the guarded SIGKILL of the timeout callback.  Returns the
final worker handle and every signal sent. -/
def gracefulThenForce (w : Worker) : Worker × List Sig :=
  if !w.killedFlag then
    let p := sendSignal w Sig.term
    let q := forceKillCallback p.1
    (q.1, p.2 ++ q.2)
  else (w, [])

/-- The observable actions of one `cleanupSession` invocation, in program
order. -/
inductive CleanupEvent
  | sendTerm
  | scheduleForce
  | removeSession
  | closeStream
deriving DecidableEq, Repr

/-- A registered session (the fields teardown inspects). -/
structure SessionEntry where
  worker : Worker
deriving DecidableEq, Repr

/-- The session registry: `this.sessions`, keys unique. -/
structure ProxyState where
  sessions : List (String × SessionEntry)
deriving DecidableEq, Repr

/-- `MCPSSEProxy.cleanupSession`: look the session up; if absent, do
nothing; otherwise send SIGTERM when no signal has been sent yet (and
schedule the force-kill callback), then delete the registry entry.  The
result pairs the new state with the ordered list of observable actions. -/
def cleanupSession (st : ProxyState) (sid : String) :
    ProxyState × List CleanupEvent :=
  match st.sessions.lookup sid with
  | none => (st, [])
  | some s =>
    let evs :=
      if !s.worker.killedFlag then
        [CleanupEvent.sendTerm, CleanupEvent.scheduleForce]
      else []
    (⟨st.sessions.filter (fun p => !(p.1 == sid))⟩,
      evs ++ [CleanupEvent.removeSession])

theorem lookup_filter_ne {β : Type} (l : List (String × β)) (sid : String) :
    (l.filter (fun p => !(p.1 == sid))).lookup sid = none := by
  induction l with
  | nil => rfl
  | cons p rest ih =>
    obtain ⟨k, v⟩ := p
    rw [List.filter_cons]
    by_cases hp : k = sid
    · rw [if_neg (by simp [hp])]
      exact ih
    · rw [if_pos (by simp [hp])]
      have hb : (sid == k) = false := by
        simp
        exact fun hcontra => hp hcontra.symm
      simp [List.lookup, hb, ih]

/-- The ordering property asserted by the claim: the registry removal
happens strictly before the graceful-termination request. -/
def removalPrecedesTermination (evs : List CleanupEvent) : Prop :=
  ∃ i j : Nat, i < j ∧ evs[i]? = some CleanupEvent.removeSession ∧
    evs[j]? = some CleanupEvent.sendTerm

/-- The full C1 property: removal-first ordering, and the stream handle is
released as the final teardown step. -/
def claimC1Property (evs : List CleanupEvent) : Prop :=
  removalPrecedesTermination evs ∧
    evs.getLast? = some CleanupEvent.closeStream

/-- C1 (counterexample): for a registered session with a live,
not-yet-signalled worker, `cleanupSession` requests worker termination
*before* removing the session from the registry, and it never releases the
stream handle, so the claimed ordering fails at this concrete input. -/
theorem cleanup_order_counterexample :
    ¬ claimC1Property
      (cleanupSession ⟨[("s1", ⟨⟨false, false, false⟩⟩)]⟩ "s1").2 := by
  intro h
  exact absurd h.2 (by decide)

/-- C1 (amended): for every session id present in the registry whose worker
has not yet been signalled, teardown first requests graceful termination of
the worker (scheduling the force-kill check), and only afterwards removes
the session from the registry — the removal is the last observable action —
and teardown never releases the caller's stream handle itself. -/
theorem cleanup_terminates_then_removes (st : ProxyState) (sid : String)
    (s : SessionEntry) (h : st.sessions.lookup sid = some s)
    (hk : s.worker.killedFlag = false) :
    (cleanupSession st sid).2 =
      [CleanupEvent.sendTerm, CleanupEvent.scheduleForce,
        CleanupEvent.removeSession] ∧
    CleanupEvent.closeStream ∉ (cleanupSession st sid).2 ∧
    (cleanupSession st sid).1.sessions.lookup sid = none := by
  have hc : cleanupSession st sid =
      (⟨st.sessions.filter (fun p => !(p.1 == sid))⟩,
        [CleanupEvent.sendTerm, CleanupEvent.scheduleForce,
          CleanupEvent.removeSession]) := by
    simp [cleanupSession, h, hk]
  rw [hc]
  refine ⟨rfl, by simp, lookup_filter_ne st.sessions sid⟩

theorem cleanup_terminates_then_removes_witness :
    (cleanupSession ⟨[("s1", ⟨⟨false, false, false⟩⟩)]⟩ "s1").2 =
      [CleanupEvent.sendTerm, CleanupEvent.scheduleForce,
        CleanupEvent.removeSession] ∧
    CleanupEvent.closeStream ∉
      (cleanupSession ⟨[("s1", ⟨⟨false, false, false⟩⟩)]⟩ "s1").2 ∧
    (cleanupSession ⟨[("s1", ⟨⟨false, false, false⟩⟩)]⟩
        "s1").1.sessions.lookup "s1" = none :=
  cleanup_terminates_then_removes ⟨[("s1", ⟨⟨false, false, false⟩⟩)]⟩ "s1"
    ⟨⟨false, false, false⟩⟩ rfl rfl

/-- C3: teardown is idempotent: when the session id is absent from the
registry the routine is a no-op returning immediately, and a second
invocation for the same id changes nothing and performs no further
termination attempt (no observable action at all). -/
theorem cleanup_idempotent (st : ProxyState) (sid : String) :
    (st.sessions.lookup sid = none → cleanupSession st sid = (st, [])) ∧
    cleanupSession (cleanupSession st sid).1 sid =
      ((cleanupSession st sid).1, []) := by
  constructor
  · intro h
    simp [cleanupSession, h]
  · rcases h : st.sessions.lookup sid with _ | s
    · simp [cleanupSession, h]
    · have hpost :
          (st.sessions.filter (fun p => !(p.1 == sid))).lookup sid = none :=
        lookup_filter_ne st.sessions sid
      simp [cleanupSession, h, hpost]

theorem cleanup_idempotent_witness :
    (cleanupSession ⟨[]⟩ "s1" = (⟨[]⟩, [])) ∧
    cleanupSession
        (cleanupSession ⟨[("s1", ⟨⟨false, false, false⟩⟩)]⟩ "s1").1 "s1" =
      ((cleanupSession ⟨[("s1", ⟨⟨false, false, false⟩⟩)]⟩ "s1").1, []) :=
  ⟨(cleanup_idempotent ⟨[]⟩ "s1").1 rfl,
    (cleanup_idempotent ⟨[("s1", ⟨⟨false, false, false⟩⟩)]⟩ "s1").2⟩

/-- C2 (code bug): for a live worker that ignores SIGTERM and has received
no signal yet, the grace-then-force sequence of `cleanupSession` sends only
SIGTERM: the timeout callback guards the force kill on the `killed` flag,
which is already `true` because it merely records that a signal was *sent*,
so SIGKILL is never issued even though the worker has still not exited when
the grace period expires. -/
theorem force_kill_never_fires :
    gracefulThenForce ⟨false, false, true⟩ =
      (⟨false, true, true⟩, [Sig.term]) ∧
    Sig.kill ∉ (gracefulThenForce ⟨false, false, true⟩).2 ∧
    (gracefulThenForce ⟨false, false, true⟩).1.exited = false := by
  decide

/-! ## Admission control: environment filtering and command gating

Embeds `MCPSSEProxy.extractEnvVarsFromHeaders` (src/index.ts lines 151-179),
the static `blacklistedEnvVars` deny-list and `enabledCommands` allow-list
(src/config, lines 495-535 of the concatenated source), `validateCommand`
(lines 581-587), and the admission part of `handleSSEConnection`
(lines 199-261). -/

/-- The static deny-list `blacklistedEnvVars`. -/
def blacklistedEnvVars : List String :=
  ["PATH", "HOME", "USER", "SHELL", "PWD", "TMPDIR", "TEMP", "TMP",
    "HOSTNAME", "LANG", "LC_ALL", "SUDO_USER", "SUDO_COMMAND",
    "SSH_AUTH_SOCK", "SSH_AGENT_PID", "AWS_ACCESS_KEY", "AWS_SECRET_KEY",
    "AWS_SESSION_TOKEN", "API_KEY", "SECRET_KEY", "PRIVATE_KEY", "PASSWORD",
    "TOKEN", "MAXIM_SECRET", "NODE_OPTIONS", "NODE_PATH", "NPM_TOKEN",
    "YARN_RC_FILENAME", "NODE_TLS_REJECT_UNAUTHORIZED"]

/-- `name.toUpperCase()` on an (ASCII) header name. -/
def upperStr (s : String) : String := String.mk (s.data.map Char.toUpper)

/-- `upperName.startsWith("ENV_")`. -/
def hasEnvMarker (s : String) : Bool :=
  match s.data with
  | 'E' :: 'N' :: 'V' :: '_' :: _ => true
  | _ => false

/-- `upperName.substring(4)`: strip the four marker characters. -/
def stripEnvMarker (s : String) : String := String.mk (s.data.drop 4)

/-- One loop iteration of `extractEnvVarsFromHeaders`: upper-case the
header name, keep it only when it starts with the `ENV_` marker, strip the
prefix, drop deny-listed keys, otherwise store the value under the key
(later headers overwrite earlier ones, as assignment to the object does). -/
def extractStep (acc : String → Option String) (h : String × String) :
    String → Option String :=
  let upperName := upperStr h.1
  if hasEnvMarker upperName then
    let envKey := stripEnvMarker upperName
    if envKey ∈ blacklistedEnvVars then acc
    else fun k => if k = envKey then some h.2 else acc k
  else acc

/-- `MCPSSEProxy.extractEnvVarsFromHeaders`: fold the extraction step over
the inbound headers, starting from the empty override map. -/
def extractEnvVarsFromHeaders (headers : List (String × String)) :
    String → Option String :=
  headers.foldl extractStep (fun _ => none)

theorem extractStep_not_marked {acc : String → Option String}
    {h : String × String} (hn : ¬(hasEnvMarker (upperStr h.1) = true)) :
    extractStep acc h = acc := by
  simp [extractStep, hn]

theorem extractStep_denied {acc : String → Option String}
    {h : String × String} (hm : hasEnvMarker (upperStr h.1) = true)
    (hb : stripEnvMarker (upperStr h.1) ∈ blacklistedEnvVars) :
    extractStep acc h = acc := by
  simp [extractStep, hm, hb]

theorem extractStep_stored {acc : String → Option String}
    {h : String × String} (hm : hasEnvMarker (upperStr h.1) = true)
    (hb : stripEnvMarker (upperStr h.1) ∉ blacklistedEnvVars) :
    extractStep acc h =
      fun k => if k = stripEnvMarker (upperStr h.1) then some h.2 else acc k := by
  simp [extractStep, hm, hb]

theorem extract_aux (headers : List (String × String)) :
    ∀ (acc : String → Option String) (k v : String),
      headers.foldl extractStep acc k = some v →
      acc k = some v ∨
        (k ∉ blacklistedEnvVars ∧
          ∃ p ∈ headers, hasEnvMarker (upperStr p.1) = true ∧
            k = stripEnvMarker (upperStr p.1)) := by
  induction headers with
  | nil => intro acc k v h; exact Or.inl h
  | cons p rest ih =>
    intro acc k v h
    rw [List.foldl_cons] at h
    rcases ih (extractStep acc p) k v h with hacc | hder
    · by_cases hm : hasEnvMarker (upperStr p.1) = true
      · by_cases hb : stripEnvMarker (upperStr p.1) ∈ blacklistedEnvVars
        · rw [extractStep_denied hm hb] at hacc
          exact Or.inl hacc
        · rw [extractStep_stored hm hb] at hacc
          by_cases hk : k = stripEnvMarker (upperStr p.1)
          · right
            refine ⟨hk ▸ hb, p, List.mem_cons_self p rest, hm, hk⟩
          · have hacc2 : (if k = stripEnvMarker (upperStr p.1) then some p.2
                else acc k) = some v := hacc
            rw [if_neg hk] at hacc2
            exact Or.inl hacc2
      · rw [extractStep_not_marked hm] at hacc
        exact Or.inl hacc
    · right
      exact ⟨hder.1, hder.2.elim (fun q hq =>
        ⟨q, List.mem_cons_of_mem p hq.1, hq.2⟩)⟩

theorem extract_denied_aux (headers : List (String × String)) :
    ∀ (acc : String → Option String) (b : String),
      b ∈ blacklistedEnvVars → acc b = none →
      headers.foldl extractStep acc b = none := by
  induction headers with
  | nil => intro acc b _ hacc; exact hacc
  | cons p rest ih =>
    intro acc b hb hacc
    rw [List.foldl_cons]
    refine ih (extractStep acc p) b hb ?_
    by_cases hm : hasEnvMarker (upperStr p.1) = true
    · by_cases hbl : stripEnvMarker (upperStr p.1) ∈ blacklistedEnvVars
      · rw [extractStep_denied hm hbl]; exact hacc
      · rw [extractStep_stored hm hbl]
        show (if b = stripEnvMarker (upperStr p.1) then some p.2
          else acc b) = none
        rw [if_neg (fun hcontra : b = stripEnvMarker (upperStr p.1) =>
          hbl (hcontra ▸ hb))]
        exact hacc
    · rw [extractStep_not_marked hm]; exact hacc

/-- C7: every override key in the environment handed to the worker is the
upper-cased remainder, after the `ENV_` marker prefix, of some inbound
header whose upper-cased name begins with that prefix; and no key of the
deny-list (whose names are all upper-case, so a match in any letter case
upper-cases to an exact match) ever appears in that environment — the
extraction never fails, it silently drops the override. -/
theorem env_override_denylist_filtering (headers : List (String × String)) :
    (∀ k v, extractEnvVarsFromHeaders headers k = some v →
      k ∉ blacklistedEnvVars ∧
        ∃ p ∈ headers, hasEnvMarker (upperStr p.1) = true ∧
          k = stripEnvMarker (upperStr p.1)) ∧
    (∀ b ∈ blacklistedEnvVars, extractEnvVarsFromHeaders headers b = none) := by
  constructor
  · intro k v h
    rcases extract_aux headers (fun _ => none) k v h with hacc | hder
    · exact absurd hacc (by simp)
    · exact hder
  · intro b hb
    exact extract_denied_aux headers (fun _ => none) b hb rfl

theorem env_override_denylist_filtering_witness :
    ("FOO" ∉ blacklistedEnvVars ∧
      ∃ p ∈ [("env_path", "x"), ("Env_Foo", "y")],
        hasEnvMarker (upperStr p.1) = true ∧
          "FOO" = stripEnvMarker (upperStr p.1)) ∧
    extractEnvVarsFromHeaders [("env_path", "x"), ("Env_Foo", "y")]
      "PATH" = none :=
  ⟨(env_override_denylist_filtering [("env_path", "x"), ("Env_Foo", "y")]).1
      "FOO" "y" (by decide),
    (env_override_denylist_filtering [("env_path", "x"), ("Env_Foo", "y")]).2
      "PATH" (by decide)⟩

/-- The static allow-list `enabledCommands`. -/
def enabledCommands : List (String × Bool) :=
  [("npx -y @upstash/context7-mcp@latest", true),
    ("npx -y @maximai/mcp-server@latest", true),
    ("npx -y @notionhq/notion-mcp-server", true),
    ("npx -y exa-mcp-server", true),
    ("docker run -i --rm -e GITHUB_PERSONAL_ACCESS_TOKEN ghcr.io/github/github-mcp-server",
      true)]

/-- `validateCommand`: the command passes only when it is mapped to `true`
in the allow-list (`!isEnabled` throws on both an absent key and a key
mapped to `false`). -/
def validateCommand (command : String) : Option String :=
  if enabledCommands.lookup command = some true then some command else none

/-- Outcome of a stream-open request as far as admission is concerned. -/
structure SSEOutcome where
  result : Except String String
  registry : ProxyState
  spawned : List String
deriving Repr

/-- The admission path of `MCPSSEProxy.handleSSEConnection`: validate the
command (an invalid command throws, caught by the handler which replies
with an error and touches nothing), then extract the header overrides,
spawn the worker and register the session. -/
def handleSSEConnection (st : ProxyState) (command : String)
    (headers : List (String × String)) (freshId : String) : SSEOutcome :=
  match validateCommand command with
  | none => ⟨Except.error "Internal server error", st, []⟩
  | some cmdStr =>
    let _envVars := extractEnvVarsFromHeaders headers
    ⟨Except.ok freshId,
      ⟨(freshId, ⟨⟨false, false, false⟩⟩) :: st.sessions⟩,
      [cmdStr]⟩

/-- C6: a stream-open request whose command is not mapped to `true` in the
static allow-list is rejected, spawns no worker process, and leaves the
session registry unchanged. -/
theorem rejected_command_spawns_nothing (st : ProxyState) (command : String)
    (headers : List (String × String)) (freshId : String)
    (h : enabledCommands.lookup command ≠ some true) :
    (handleSSEConnection st command headers freshId).result =
      Except.error "Internal server error" ∧
    (handleSSEConnection st command headers freshId).spawned = [] ∧
    (handleSSEConnection st command headers freshId).registry = st := by
  have hv : validateCommand command = none := by
    simp [validateCommand, h]
  refine ⟨?_, ?_, ?_⟩ <;> simp [handleSSEConnection, hv]

theorem rejected_command_spawns_nothing_witness :
    (handleSSEConnection ⟨[]⟩ "rm -rf /" [] "sid").result =
      Except.error "Internal server error" ∧
    (handleSSEConnection ⟨[]⟩ "rm -rf /" [] "sid").spawned = [] ∧
    (handleSSEConnection ⟨[]⟩ "rm -rf /" [] "sid").registry = ⟨[]⟩ :=
  rejected_command_spawns_nothing ⟨[]⟩ "rm -rf /" [] "sid" (by decide)

/-! ## Rate limiter

Embeds `DefaultRateLimiter` of src/utils/rate-limiter.ts: a per-identity
visitor map with a lazily swept staleness timeout, each visitor holding a
token bucket from the external npm `limiter` package, configured as
`tokensPerInterval = requestsPerMinute`, `interval = "minute"`,
`fireImmediately = true`, consumed through `tryRemoveTokens(1)`. -/

/-- Modelled from the spec: the token bucket of the external npm `limiter`
package (the package itself is not part of this repository).  Per §4.2 of
the specification the configured steady-state rate (requests per minute)
determines the refill, an initial allowance is available immediately
(the first request for a new identity is not starved), and when the bucket
has no tokens the conditional removal returns false without blocking or
queueing.  Token content is scaled by 60000 so that the per-millisecond
refill of `rpm` requests per minute is the integer `rpm`; one token is
60000 units. -/
structure Bucket where
  content : Nat
  lastDrip : Nat
deriving DecidableEq, Repr

/-- A freshly created bucket holds its full allowance. -/
def Bucket.fresh (rpm now : Nat) : Bucket := ⟨rpm * 60000, now⟩

/-- Continuous refill at `rpm` tokens per minute, capped at the bucket
size. -/
def Bucket.drip (b : Bucket) (rpm now : Nat) : Bucket :=
  ⟨min (rpm * 60000) (b.content + (now - b.lastDrip) * rpm), now⟩

/-- `tryRemoveTokens(1)`: refill, then consume one token if available,
else report failure immediately. -/
def Bucket.tryRemoveToken (b : Bucket) (rpm now : Nat) : Bool × Bucket :=
  let d := b.drip rpm now
  if 60000 ≤ d.content then (true, ⟨d.content - 60000, now⟩)
  else (false, d)

/-- One visitor of `DefaultRateLimiter`: its token bucket and the
`lastUsed` timestamp. -/
structure VisitorEntry where
  bucket : Bucket
  lastUsed : Nat
deriving DecidableEq, Repr

/-- The mutable state of `DefaultRateLimiter`: the visitor map and the
`lastCleanup` timestamp. -/
structure RateLimiterState where
  visitors : List (String × VisitorEntry)
  lastCleanup : Nat
deriving DecidableEq, Repr

/-- Constructor default `cleanupInterval` (5 minutes). -/
def cleanupIntervalDefault : Nat := 300000

/-- Constructor default `visitorTimeout` (30 minutes). -/
def visitorTimeoutDefault : Nat := 1800000

/-- A just-constructed limiter: no visitors, `lastCleanup = Date.now()`. -/
def RateLimiterState.fresh (now : Nat) : RateLimiterState := ⟨[], now⟩

/-- `cleanupStaleVisitors`: at most once per cleanup interval, drop every
visitor idle beyond the visitor timeout. -/
def cleanupStaleVisitors (st : RateLimiterState) (now : Nat) :
    RateLimiterState :=
  if now - st.lastCleanup < cleanupIntervalDefault then st
  else
    ⟨st.visitors.filter
        (fun p => !(visitorTimeoutDefault < now - p.2.lastUsed)),
      now⟩

/-- In-place update of one visitor, as mutating the object held by the
`Map` does. -/
def setVisitor (vs : List (String × VisitorEntry)) (ip : String)
    (v : VisitorEntry) : List (String × VisitorEntry) :=
  vs.map (fun p => if p.1 = ip then (ip, v) else p)

/-- `allow(ip)` = `getVisitor(ip).allow()`: lazily sweep stale visitors,
look the identity up (creating a full fresh bucket for a previously unseen
identity), refresh `lastUsed`, and try to remove one token. -/
def allow (rpm : Nat) (st : RateLimiterState) (ip : String) (now : Nat) :
    Bool × RateLimiterState :=
  let st1 := cleanupStaleVisitors st now
  match st1.visitors.lookup ip with
  | none =>
    let r := (Bucket.fresh rpm now).tryRemoveToken rpm now
    (r.1, ⟨st1.visitors ++ [(ip, ⟨r.2, now⟩)], st1.lastCleanup⟩)
  | some ve =>
    let r := ve.bucket.tryRemoveToken rpm now
    (r.1, ⟨setVisitor st1.visitors ip ⟨r.2, now⟩, st1.lastCleanup⟩)

/-- `n` consecutive `allow` calls for the same identity at the same
instant. -/
def allowN (rpm : Nat) (ip : String) (now : Nat) :
    Nat → RateLimiterState → List Bool × RateLimiterState
  | 0, st => ([], st)
  | Nat.succ n, st =>
    let r := allow rpm st ip now
    let rest := allowN rpm ip now n r.2
    (r.1 :: rest.1, rest.2)

/-- A limiter state with exactly one visitor: cleanup stamp `tc`, bucket
content `c` dripped at `tb`, last used at `tb`. -/
def oneVisitor (ip : String) (tc tb c : Nat) : RateLimiterState :=
  ⟨[(ip, ⟨⟨c, tb⟩, tb⟩)], tc⟩

theorem allow_fresh (rpm t0 : Nat) (ip : String) (hr : 1 ≤ rpm) :
    allow rpm (RateLimiterState.fresh t0) ip t0 =
      (true, oneVisitor ip t0 t0 (rpm * 60000 - 60000)) := by
  have htok : 60000 ≤ rpm * 60000 :=
    le_mul_of_one_le_left (by omega) hr
  simp [allow, RateLimiterState.fresh, cleanupStaleVisitors,
    cleanupIntervalDefault, List.lookup, Bucket.tryRemoveToken, Bucket.drip,
    Bucket.fresh, htok, oneVisitor, Nat.min_self]

theorem allow_oneVisitor_true (rpm tc tb c now : Nat) (ip : String)
    (hcl : now - tc < cleanupIntervalDefault)
    (hd : 60000 ≤ min (rpm * 60000) (c + (now - tb) * rpm)) :
    allow rpm (oneVisitor ip tc tb c) ip now =
      (true,
        oneVisitor ip tc now
          (min (rpm * 60000) (c + (now - tb) * rpm) - 60000)) := by
  simp [allow, oneVisitor, cleanupStaleVisitors, hcl, List.lookup,
    Bucket.tryRemoveToken, Bucket.drip, hd, setVisitor]

theorem allow_oneVisitor_false (rpm tc tb c now : Nat) (ip : String)
    (hcl : now - tc < cleanupIntervalDefault)
    (hd : min (rpm * 60000) (c + (now - tb) * rpm) < 60000) :
    allow rpm (oneVisitor ip tc tb c) ip now =
      (false,
        oneVisitor ip tc now (min (rpm * 60000) (c + (now - tb) * rpm))) := by
  simp [allow, oneVisitor, cleanupStaleVisitors, hcl, List.lookup,
    Bucket.tryRemoveToken, Bucket.drip, Nat.not_le.mpr hd, setVisitor]

theorem allowN_oneVisitor (rpm t0 : Nat) (ip : String) :
    ∀ (k c : Nat), 60000 * k ≤ c → c ≤ rpm * 60000 →
      allowN rpm ip t0 k (oneVisitor ip t0 t0 c) =
        (List.replicate k true, oneVisitor ip t0 t0 (c - 60000 * k)) := by
  intro k
  induction k with
  | zero => intro c _ _; simp [allowN]
  | succ n ih =>
    intro c hk hc
    have hmin : min (rpm * 60000) (c + (t0 - t0) * rpm) = c := by
      simp [Nat.min_eq_right hc]
    have hd : 60000 ≤ min (rpm * 60000) (c + (t0 - t0) * rpm) := by
      rw [hmin]; omega
    have h1 := allow_oneVisitor_true rpm t0 t0 c t0 ip
      (by simp [cleanupIntervalDefault]) hd
    rw [hmin] at h1
    simp only [allowN, h1]
    rw [ih (c - 60000) (by omega) (by omega)]
    have harith : c - 60000 - 60000 * n = c - 60000 * (n + 1) := by omega
    rw [harith, List.replicate_succ]

/-- C8: for every caller identity with configured rate `rpm ≥ 1`: the first
request from a previously unseen identity is allowed; the first `rpm`
requests inside one window are all allowed; request `rpm + 1` inside the
same window is rejected; and after one full minute of refill the identity
is allowed again. -/
theorem rate_limit_window (rpm t0 : Nat) (ip : String) (hr : 1 ≤ rpm) :
    (allow rpm (RateLimiterState.fresh t0) ip t0).1 = true ∧
    (allowN rpm ip t0 rpm (RateLimiterState.fresh t0)).1 =
      List.replicate rpm true ∧
    (allow rpm (allowN rpm ip t0 rpm (RateLimiterState.fresh t0)).2
      ip t0).1 = false ∧
    (allow rpm
      (allow rpm (allowN rpm ip t0 rpm (RateLimiterState.fresh t0)).2
        ip t0).2 ip (t0 + 60000)).1 = true := by
  obtain ⟨n, rfl⟩ : ∃ n, rpm = n + 1 := ⟨rpm - 1, by omega⟩
  have hfresh := allow_fresh (n + 1) t0 ip hr
  have hrun := allowN_oneVisitor (n + 1) t0 ip n ((n + 1) * 60000 - 60000)
    (by ring_nf; omega) (by omega)
  have hdrained : (n + 1) * 60000 - 60000 - 60000 * n = 0 := by ring_nf; omega
  have hfull : allowN (n + 1) ip t0 (n + 1) (RateLimiterState.fresh t0) =
      (List.replicate (n + 1) true, oneVisitor ip t0 t0 0) := by
    simp only [allowN, hfresh]
    rw [hrun, hdrained]
    simp [List.replicate_succ]
  have hminzero : min ((n + 1) * 60000) (0 + (t0 - t0) * (n + 1)) = 0 := by
    simp
  have hreject := allow_oneVisitor_false (n + 1) t0 t0 0 t0 ip
    (by simp [cleanupIntervalDefault]) (by rw [hminzero]; omega)
  rw [hminzero] at hreject
  have hminfull :
      min ((n + 1) * 60000) (0 + (t0 + 60000 - t0) * (n + 1)) =
        (n + 1) * 60000 := by
    have : t0 + 60000 - t0 = 60000 := by omega
    rw [this]
    have : 0 + 60000 * (n + 1) = (n + 1) * 60000 := by ring
    rw [this, Nat.min_self]
  have hrefill := allow_oneVisitor_true (n + 1) t0 t0 0 (t0 + 60000) ip
    (by simp [cleanupIntervalDefault]) (by rw [hminfull]; omega)
  refine ⟨by rw [hfresh], by rw [hfull], ?_, ?_⟩
  · rw [hfull, hreject]
  · rw [hfull, hreject, hrefill]

theorem rate_limit_window_witness :
    (allow 2 (RateLimiterState.fresh 1000) "10.0.0.7" 1000).1 = true ∧
    (allowN 2 "10.0.0.7" 1000 2 (RateLimiterState.fresh 1000)).1 =
      List.replicate 2 true ∧
    (allow 2 (allowN 2 "10.0.0.7" 1000 2 (RateLimiterState.fresh 1000)).2
      "10.0.0.7" 1000).1 = false ∧
    (allow 2
      (allow 2 (allowN 2 "10.0.0.7" 1000 2 (RateLimiterState.fresh 1000)).2
        "10.0.0.7" 1000).2 "10.0.0.7" (1000 + 60000)).1 = true :=
  rate_limit_window 2 1000 "10.0.0.7" (by omega)

/-! ## HTTP middleware pipeline

Embeds the middleware of src/middleware/index.ts and the wiring order of
`MCPSSEProxy.setupMiddleware`/`setupRoutes` (src/index.ts lines 53-104):
CORS and request logging (no behavioural effect on routing), then the
security middleware, then the auth middleware, then the rate-limit
middleware, then the route handlers — `GET /health` being
`handleHealthCheck` (lines 181-197), which replies 200 with a JSON body
carrying status, uptime, active session count and memory usage. -/

/-- `name.toLowerCase()` (ASCII). -/
def lowerStr (s : String) : String := String.mk (s.data.map Char.toLower)

/-- `header.split(" ")`. -/
def splitOnSpace (s : String) : List String :=
  (s.data.splitOn ' ').map String.mk

/-- An inbound request as the middleware sees it. -/
structure HttpReq where
  method : String
  url : String
  authHeader : Option String
  ip : String
deriving Repr

/-- Response bodies the embedded pipeline can produce. -/
inductive RespBody
  | plainOk
  | preflight
  | healthDetail (status : String) (uptimeSec sessions memMB : Nat)
  | jsonError (msg : String)
deriving DecidableEq, Repr

/-- A middleware either passes the request on or ends it with a
response. -/
inductive MwStep
  | next
  | respond (status : Nat) (body : RespBody)
deriving DecidableEq, Repr

/-- `createSecurityMiddleware` (src/middleware, lines 41-96): a request for
`/health` is answered `200 "ok"` immediately; an OPTIONS preflight is
answered 200 after the CORS headers; everything else passes through. -/
def securityMiddleware (req : HttpReq) : MwStep :=
  if req.url = "/health" then MwStep.respond 200 RespBody.plainOk
  else if req.method = "OPTIONS" then MwStep.respond 200 RespBody.preflight
  else MwStep.next

/-- `createAuthMiddleware` (src/middleware, lines 5-38): health checks and
OPTIONS requests skip authentication; otherwise the Authorization header
must be a two-part bearer credential exactly matching the secret. -/
def authMiddleware (authSecret : String) (req : HttpReq) : MwStep :=
  if req.url = "/health" ∨ req.method = "OPTIONS" then MwStep.next
  else
    match req.authHeader with
    | none =>
      MwStep.respond 401 (RespBody.jsonError "Authorization header required")
    | some h =>
      let parts := splitOnSpace h
      if parts.length ≠ 2 ∨ lowerStr (parts.headD "") ≠ "bearer" then
        MwStep.respond 401 (RespBody.jsonError "Invalid authorization format")
      else if parts.getD 1 "" ≠ authSecret then
        MwStep.respond 401 (RespBody.jsonError "Invalid token")
      else MwStep.next

/-- `createRateLimitMiddleware` (src/middleware, lines 99-131): health
checks and OPTIONS requests skip rate limiting entirely; otherwise one
token is consumed from the caller identity's bucket and exhaustion is
answered 429. -/
def rateLimitMiddleware (rpm : Nat) (st : RateLimiterState) (now : Nat)
    (req : HttpReq) : MwStep × RateLimiterState :=
  if req.url = "/health" ∨ req.method = "OPTIONS" then (MwStep.next, st)
  else
    let r := allow rpm st req.ip now
    if r.1 then (MwStep.next, r.2)
    else (MwStep.respond 429 (RespBody.jsonError "Rate limit exceeded"), r.2)

/-- The middleware chain followed by the routing layer, in registration
order.  `uptimeSec`, `sessions` and `memMB` are the process statistics the
registered `/health` route handler would serialize. -/
def pipeline (authSecret : String) (rpm : Nat) (st : RateLimiterState)
    (now uptimeSec sessions memMB : Nat) (req : HttpReq) :
    (Nat × RespBody) × RateLimiterState :=
  match securityMiddleware req with
  | MwStep.respond s b => ((s, b), st)
  | MwStep.next =>
    match authMiddleware authSecret req with
    | MwStep.respond s b => ((s, b), st)
    | MwStep.next =>
      let r := rateLimitMiddleware rpm st now req
      match r.1 with
      | MwStep.respond s b => ((s, b), r.2)
      | MwStep.next =>
        if req.method = "GET" ∧ req.url = "/health" then
          ((200, RespBody.healthDetail "ok" uptimeSec sessions memMB), r.2)
        else ((404, RespBody.jsonError "not found"), r.2)

/-- C5 (code bug): a `GET /health` request is answered by the security
middleware with a bare `200 "ok"` before the registered health route
handler can run, so the response never carries the uptime, active session
count or memory usage that `handleHealthCheck` (and the README) promise;
the request does bypass authentication and consumes no rate-limit token,
but only because it never reaches those middlewares at all. -/
theorem health_request_shortcircuits (authSecret : String) (rpm : Nat)
    (st : RateLimiterState) (now uptimeSec sessions memMB : Nat)
    (auth : Option String) (ip : String) :
    pipeline authSecret rpm st now uptimeSec sessions memMB
        ⟨"GET", "/health", auth, ip⟩ =
      ((200, RespBody.plainOk), st) ∧
    (∀ s u se m, RespBody.plainOk ≠ RespBody.healthDetail s u se m) := by
  constructor
  · simp [pipeline, securityMiddleware]
  · intro s u se m hcontra
    exact RespBody.noConfusion hcontra

/-- C10: an OPTIONS request, whatever its path, passes the authentication
middleware without any credential being checked and passes the rate-limit
middleware without consuming a token (the limiter state is returned
untouched), so a preflight is never rejected for a missing or wrong bearer
token and never counted against any identity's bucket. -/
theorem options_bypasses_auth_and_rate_limit (authSecret : String)
    (rpm : Nat) (st : RateLimiterState) (now : Nat) (req : HttpReq)
    (h : req.method = "OPTIONS") :
    authMiddleware authSecret req = MwStep.next ∧
    rateLimitMiddleware rpm st now req = (MwStep.next, st) := by
  constructor <;> simp [authMiddleware, rateLimitMiddleware, h]

theorem options_bypasses_auth_and_rate_limit_witness :
    authMiddleware "s3cret" ⟨"OPTIONS", "/cmd/sse", none, "1.2.3.4"⟩ =
      MwStep.next ∧
    rateLimitMiddleware 5 (RateLimiterState.fresh 0) 0
        ⟨"OPTIONS", "/cmd/sse", none, "1.2.3.4"⟩ =
      (MwStep.next, RateLimiterState.fresh 0) :=
  options_bypasses_auth_and_rate_limit "s3cret" 5 (RateLimiterState.fresh 0)
    0 ⟨"OPTIONS", "/cmd/sse", none, "1.2.3.4"⟩ rfl

/-! ## Per-line error handling of the outbound relay -/

/-- What the stdout data handler does with one complete line. -/
inductive LineAction (J : Type)
  | skip
  | forward (msg : J)
  | dropLogged

/-- One iteration of the `lines.forEach` body (src/index.ts lines
311-327), paired with whether it triggers session teardown: blank lines
are skipped; parsable lines are forwarded; a line that fails `JSON.parse`
is logged and dropped — the catch block never calls `cleanupSession`. -/
def handleStdoutLine {J : Type} (parse : List Char → Option J)
    (line : List Char) : LineAction J × Bool :=
  if trimEmpty line then (LineAction.skip, false)
  else
    match parse line with
    | some m => (LineAction.forward m, false)
    | none => (LineAction.dropLogged, false)

/-- The inbound relay write (src/index.ts lines 278-292): whether teardown
is triggered, given whether the `childProcess.stdin.write` succeeded — a
failed write is fatal to the session. -/
def handleInboundWrite (writeSucceeds : Bool) : Bool :=
  if writeSucceeds then false else true

/-- C9: a complete worker output line that fails to parse as JSON is
logged and dropped: nothing is forwarded for it, no teardown is triggered,
and the messages forwarded for the surrounding lines are exactly those of
the same stream without the malformed line — while the inbound-relay write
failure, the fatal per-message case, does trigger teardown. -/
theorem malformed_line_nonfatal {J : Type} (parse : List Char → Option J)
    (pre post : List (List Char)) (bad : List Char)
    (hbad : parse bad = none) (hnb : trimEmpty bad = false) :
    (handleStdoutLine parse bad).1 = LineAction.dropLogged ∧
    (handleStdoutLine parse bad).2 = false ∧
    (pre ++ [bad] ++ post).filterMap (forwardLine parse) =
      pre.filterMap (forwardLine parse) ++
        post.filterMap (forwardLine parse) ∧
    handleInboundWrite false = true := by
  have hfwd : forwardLine parse bad = none := by
    simp [forwardLine, hnb, hbad]
  refine ⟨?_, ?_, ?_, rfl⟩
  · simp [handleStdoutLine, hnb, hbad]
  · simp [handleStdoutLine, hnb, hbad]
  · simp [List.filterMap_append, hfwd]

theorem malformed_line_nonfatal_witness :
    (handleStdoutLine (fun _ => (none : Option Nat))
        ['o', 'o', 'p', 's']).1 = LineAction.dropLogged ∧
    (handleStdoutLine (fun _ => (none : Option Nat))
        ['o', 'o', 'p', 's']).2 = false ∧
    ([['a'], ['o', 'o', 'p', 's'], ['b']]).filterMap
        (forwardLine (fun _ => (none : Option Nat))) =
      [['a']].filterMap (forwardLine (fun _ => (none : Option Nat))) ++
        [['b']].filterMap (forwardLine (fun _ => (none : Option Nat))) ∧
    handleInboundWrite false = true :=
  malformed_line_nonfatal (fun _ => (none : Option Nat)) [['a']] [['b']]
    ['o', 'o', 'p', 's'] rfl (by decide)

end TsMcpSseProxy
